import Mathlib

/-!
Verification of the numeric core of the market-trend-analysis repository.

The definitions below are shallow embeddings of the TypeScript source:

* `TechnicalIndicators` (RSI, SMA, EMA, MACD, Bollinger Bands, Stochastic,
  ADX) from the indicator module;
* `PredictionService` helpers (`combineModelPredictions`,
  `calculateMomentum`, `calculateAccuracyMetrics`, `calculateOverallMetrics`).

JavaScript numbers are modelled by exact rationals (`ℚ`), except where a
square root forces `ℝ`.  Division by zero is the usual Lean convention
`x / 0 = 0`; every place where the JavaScript code can actually produce a
NaN that matters to a claim is modelled explicitly with the `JQ` type below
(used for the ADX computation, whose `0/0` case is observable).
-/

/-- `Math.max(...l)` over a nonempty list; the empty case (which JavaScript
maps to `-Infinity`) is given the junk value `0` and is never reached by the
theorems below. -/
def maxList : List ℚ → ℚ
  | [] => 0
  | h :: t => t.foldl max h

/-- `Math.min(...l)` over a nonempty list; junk value `0` on `[]`. -/
def minList : List ℚ → ℚ
  | [] => 0
  | h :: t => t.foldl min h

lemma le_foldl_max (t : List ℚ) (a : ℚ) : a ≤ t.foldl max a := by
  induction t generalizing a with
  | nil => exact le_refl a
  | cons h t ih => exact le_trans (le_max_left a h) (ih (max a h))

lemma mem_le_foldl_max (t : List ℚ) (a x : ℚ) (hx : x ∈ t) : x ≤ t.foldl max a := by
  induction t generalizing a with
  | nil => cases hx
  | cons h t ih =>
    rcases List.mem_cons.mp hx with rfl | hx
    · exact le_trans (le_max_right a x) (le_foldl_max t (max a x))
    · exact ih (max a h) hx

lemma foldl_max_mem (t : List ℚ) (a : ℚ) : t.foldl max a ∈ a :: t := by
  induction t generalizing a with
  | nil => simp [List.foldl]
  | cons h t ih =>
    have hstep : List.foldl max a (h :: t) = List.foldl max (max a h) t := rfl
    rw [hstep]
    have := ih (max a h)
    rcases List.mem_cons.mp this with heq | hmem
    · rw [heq]
      rcases max_choice a h with hc | hc
      · rw [hc]; exact List.mem_cons_self _ _
      · rw [hc]; exact List.mem_cons_of_mem _ (List.mem_cons_self _ _)
    · exact List.mem_cons_of_mem _ (List.mem_cons_of_mem _ hmem)

lemma foldl_min_le (t : List ℚ) (a : ℚ) : t.foldl min a ≤ a := by
  induction t generalizing a with
  | nil => exact le_refl a
  | cons h t ih => exact le_trans (ih (min a h)) (min_le_left a h)

lemma foldl_min_le_mem (t : List ℚ) (a x : ℚ) (hx : x ∈ t) : t.foldl min a ≤ x := by
  induction t generalizing a with
  | nil => cases hx
  | cons h t ih =>
    rcases List.mem_cons.mp hx with rfl | hx
    · exact le_trans (foldl_min_le t (min a x)) (min_le_right a x)
    · exact ih (min a h) hx

lemma foldl_min_mem (t : List ℚ) (a : ℚ) : t.foldl min a ∈ a :: t := by
  induction t generalizing a with
  | nil => simp [List.foldl]
  | cons h t ih =>
    have hstep : List.foldl min a (h :: t) = List.foldl min (min a h) t := rfl
    rw [hstep]
    have := ih (min a h)
    rcases List.mem_cons.mp this with heq | hmem
    · rw [heq]
      rcases min_choice a h with hc | hc
      · rw [hc]; exact List.mem_cons_self _ _
      · rw [hc]; exact List.mem_cons_of_mem _ (List.mem_cons_self _ _)
    · exact List.mem_cons_of_mem _ (List.mem_cons_of_mem _ hmem)

lemma le_maxList {l : List ℚ} {x : ℚ} (hx : x ∈ l) : x ≤ maxList l := by
  cases l with
  | nil => cases hx
  | cons h t =>
    rcases List.mem_cons.mp hx with rfl | hx
    · exact le_foldl_max t x
    · exact mem_le_foldl_max t h x hx

lemma minList_le {l : List ℚ} {x : ℚ} (hx : x ∈ l) : minList l ≤ x := by
  cases l with
  | nil => cases hx
  | cons h t =>
    rcases List.mem_cons.mp hx with rfl | hx
    · exact foldl_min_le t x
    · exact foldl_min_le_mem t h x hx

lemma maxList_mem {l : List ℚ} (hl : l ≠ []) : maxList l ∈ l := by
  cases l with
  | nil => exact absurd rfl hl
  | cons h t => exact foldl_max_mem t h

lemma minList_mem {l : List ℚ} (hl : l ≠ []) : minList l ∈ l := by
  cases l with
  | nil => exact absurd rfl hl
  | cons h t => exact foldl_min_mem t h

/-- Element lookup in a list built by mapping over `List.range`. -/
lemma getD_map_range {α : Type} (f : ℕ → α) (n i : ℕ) (d : α) (h : i < n) :
    (((List.range n).map f).getD i d) = f i := by
  rw [List.getD_eq_getElem?_getD]
  simp [List.getElem?_map, List.getElem?_range, h]

/-! ## TechnicalIndicators -/

/-- `TechnicalIndicators.calculateSMA`: arithmetic mean over each trailing
window of size `period`.  Generic over the field so that Bollinger Bands can
instantiate it at `ℝ` while everything else uses `ℚ`. -/
def calculateSMA {K : Type} [LinearOrderedField K] (prices : List K) (period : ℕ) : List K :=
  if prices.length < period then []
  else
    (List.range (prices.length + 1 - period)).map (fun j =>
      (((prices.drop j).take period).sum) / (period : K))

/-- `TechnicalIndicators.calculateEMA`: seed with the SMA of the first
`period` values, then blend each further price with multiplier
`2 / (period + 1)`. -/
def calculateEMA (prices : List ℚ) (period : ℕ) : List ℚ :=
  if prices.length < period then []
  else
    let multiplier : ℚ := 2 / ((period : ℚ) + 1)
    let initialSMA : ℚ := ((prices.take period).sum) / (period : ℚ)
    (prices.drop period).scanl
      (fun prev p => p * multiplier + prev * (1 - multiplier)) initialSMA

/-- Per-step price changes `prices[i] - prices[i-1]` of `calculateRSI`. -/
def rsiChanges (prices : List ℚ) : List ℚ :=
  List.zipWith (fun a b => b - a) prices (prices.drop 1)

/-- The `gains` array of `calculateRSI`. -/
def rsiGains (prices : List ℚ) : List ℚ :=
  (rsiChanges prices).map (fun c => if 0 < c then c else 0)

/-- The `losses` array of `calculateRSI`. -/
def rsiLosses (prices : List ℚ) : List ℚ :=
  (rsiChanges prices).map (fun c => if c < 0 then |c| else 0)

/-- Average gain of the trailing window ending at output index `j` of
`calculateRSI` (the code slices `gains.slice(i - period + 1, i + 1)` with
`i = j + period - 1`). -/
def rsiAvgGain (prices : List ℚ) (period j : ℕ) : ℚ :=
  ((((rsiGains prices).drop j).take period).sum) / (period : ℚ)

/-- Average loss of the trailing window ending at output index `j` of
`calculateRSI`. -/
def rsiAvgLoss (prices : List ℚ) (period j : ℕ) : ℚ :=
  ((((rsiLosses prices).drop j).take period).sum) / (period : ℚ)

/-- `TechnicalIndicators.calculateRSI`. -/
def calculateRSI (prices : List ℚ) (period : ℕ) : List ℚ :=
  if prices.length < period + 1 then []
  else
    (List.range ((rsiGains prices).length + 1 - period)).map (fun j =>
      if rsiAvgLoss prices period j = 0 then 100
      else 100 - 100 / (1 + rsiAvgGain prices period j / rsiAvgLoss prices period j))

/-- `TechnicalIndicators.calculateMACD`.  The loop runs `i` from
`startIndex = Math.max(0, slowPeriod - fastPeriod)` (truncated `ℕ`
subtraction below) up to `min(emaFast.length, emaSlow.length)`, pushing
`emaFast[i + (fastPeriod - slowPeriod)] - emaSlow[i]`; with `k = i - startIndex`
and `fastPeriod ≤ slowPeriod` the fast index is exactly `k`.  Out-of-range
indexing (which only occurs for `fastPeriod > slowPeriod`, giving NaN in
JavaScript) is modelled by the `getD` default and is outside every theorem
below.  The signal line is the EMA of the MACD line, and the histogram pairs
`macd.slice(signalPeriod - 1)` with the signal line. -/
def calculateMACD (prices : List ℚ) (fastPeriod slowPeriod signalPeriod : ℕ) :
    List ℚ × List ℚ × List ℚ :=
  let emaFast := calculateEMA prices fastPeriod
  let emaSlow := calculateEMA prices slowPeriod
  let startIndex := slowPeriod - fastPeriod
  let macd := (List.range (min emaFast.length emaSlow.length - startIndex)).map (fun k =>
    emaFast.getD (k + startIndex + fastPeriod - slowPeriod) 0 - emaSlow.getD (k + startIndex) 0)
  let signal := calculateEMA macd signalPeriod
  let histogram := List.zipWith (fun v s => v - s) (macd.drop (signalPeriod - 1)) signal
  (macd, signal, histogram)

/-- MACD line as the specification words it: the fast EMA sequence is started
at the offset where it first overlaps the (shorter) slow EMA sequence, so
that entry `k` subtracts EMA values corresponding to the same position of the
input closes (`emaFast[k + (slow - fast)]` and `emaSlow[k]` both sit at close
index `k + slow - 1`).  This definition follows the specification text, to be
compared with `calculateMACD` above. -/
def macdLineSpecAligned (prices : List ℚ) (fastPeriod slowPeriod : ℕ) : List ℚ :=
  let emaFast := calculateEMA prices fastPeriod
  let emaSlow := calculateEMA prices slowPeriod
  (List.range emaSlow.length).map (fun k =>
    emaFast.getD (k + (slowPeriod - fastPeriod)) 0 - emaSlow.getD k 0)

/-- Result record of `calculateBollingerBands`. -/
structure BollingerBands where
  upper : List ℝ
  middle : List ℝ
  lower : List ℝ

/-- `TechnicalIndicators.calculateBollingerBands`: middle band is the SMA;
for each window the population standard deviation is computed and the upper
and lower bands sit at `middle ± stdDev · standardDeviation`.  Over `ℝ`
because of the square root. -/
noncomputable def calculateBollingerBands (prices : List ℝ) (period : ℕ) (stdDev : ℝ) :
    BollingerBands :=
  let sma := calculateSMA prices period
  let rows := (List.range (prices.length + 1 - period)).map (fun j =>
    let slice := (prices.drop j).take period
    let mean := slice.sum / (period : ℝ)
    let variance := (slice.map (fun b => (b - mean) ^ 2)).sum / (period : ℝ)
    let standardDeviation := Real.sqrt variance
    (sma.getD j 0 + standardDeviation * stdDev, sma.getD j 0 - standardDeviation * stdDev))
  { upper := rows.map Prod.fst, middle := sma, lower := rows.map Prod.snd }

/-- `TechnicalIndicators.calculateStochastic`: `%K` over the trailing
`kPeriod` window (50 when the window is flat), `%D` the SMA of `%K`. -/
def calculateStochastic (highs lows closes : List ℚ) (kPeriod dPeriod : ℕ) :
    List ℚ × List ℚ :=
  let k := (List.range (closes.length + 1 - kPeriod)).map (fun j =>
    let highestHigh := maxList ((highs.drop j).take kPeriod)
    let lowestLow := minList ((lows.drop j).take kPeriod)
    if highestHigh = lowestLow then 50
    else ((closes.getD (j + kPeriod - 1) 0 - lowestLow) / (highestHigh - lowestLow)) * 100)
  (k, calculateSMA k dPeriod)

/-- JavaScript number with the non-finite values that the ADX computation can
actually produce: `nan` for `0/0`, `pinf`/`ninf` for division of a nonzero
value by zero. -/
inductive JQ where
  | nan : JQ
  | pinf : JQ
  | ninf : JQ
  | num : ℚ → JQ
  deriving DecidableEq, Repr

/-- IEEE division for the cases reachable from finite operands. -/
def JQ.div : JQ → JQ → JQ
  | JQ.num a, JQ.num b =>
      if b = 0 then (if a = 0 then JQ.nan else if 0 < a then JQ.pinf else JQ.ninf)
      else JQ.num (a / b)
  | _, _ => JQ.nan

/-- IEEE multiplication for the cases reachable in `calculateADX`. -/
def JQ.mul : JQ → JQ → JQ
  | JQ.num a, JQ.num b => JQ.num (a * b)
  | JQ.pinf, JQ.num b => if 0 < b then JQ.pinf else if b < 0 then JQ.ninf else JQ.nan
  | JQ.ninf, JQ.num b => if 0 < b then JQ.ninf else if b < 0 then JQ.pinf else JQ.nan
  | JQ.num a, JQ.pinf => if 0 < a then JQ.pinf else if a < 0 then JQ.ninf else JQ.nan
  | JQ.num a, JQ.ninf => if 0 < a then JQ.ninf else if a < 0 then JQ.pinf else JQ.nan
  | _, _ => JQ.nan

/-- `Math.max` on two JavaScript numbers (NaN-propagating). -/
def JQ.jmax : JQ → JQ → JQ
  | JQ.nan, _ => JQ.nan
  | _, JQ.nan => JQ.nan
  | JQ.pinf, _ => JQ.pinf
  | _, JQ.pinf => JQ.pinf
  | JQ.ninf, b => b
  | a, JQ.ninf => a
  | JQ.num a, JQ.num b => JQ.num (max a b)

/-- `Math.min` on two JavaScript numbers (NaN-propagating). -/
def JQ.jmin : JQ → JQ → JQ
  | JQ.nan, _ => JQ.nan
  | _, JQ.nan => JQ.nan
  | JQ.ninf, _ => JQ.ninf
  | _, JQ.ninf => JQ.ninf
  | JQ.pinf, b => b
  | a, JQ.pinf => a
  | JQ.num a, JQ.num b => JQ.num (min a b)

/-- A JavaScript number that is finite and clamped into `[0, 100]`. -/
def JQ.isClamped01 (v : JQ) : Prop :=
  ∃ q : ℚ, v = JQ.num q ∧ 0 ≤ q ∧ q ≤ 100

/-- `TechnicalIndicators.calculateADX` (the simplified directional proxy):
for each `i` from `period` to `highs.length - 1` it slices
`highs.slice(i - period, i)` (below `j = i - period`), takes
`trend = slice[slice.length - 1] - slice[0]` and
`volatility = max(slice) - min(slice)`, and pushes
`min(100, max(0, |trend| / volatility * 100))`.  The division is performed in
`JQ` so that the `0 / 0` NaN of a flat window is represented faithfully. -/
def calculateADX (highs lows closes : List ℚ) (period : ℕ) : List JQ :=
  if highs.length < period + 1 then []
  else
    (List.range (highs.length - period)).map (fun j =>
      let slice := (highs.drop j).take period
      let trend := slice.getD (slice.length - 1) 0 - slice.getD 0 0
      let volatility := maxList slice - minList slice
      let adxValue := JQ.mul (JQ.div (JQ.num |trend|) (JQ.num volatility)) (JQ.num 100)
      JQ.jmin (JQ.num 100) (JQ.jmax (JQ.num 0) adxValue))

/-! ## PredictionService -/

/-- `EnhancedPrediction` from the prediction service.  Calendar dates
(ISO strings in the source) are modelled as natural-number day keys. -/
structure EnhancedPrediction where
  timestamp : ℕ
  predicted : ℚ
  confidence : ℚ
  upperBound : ℚ
  lowerBound : ℚ
  actual : Option ℚ
  accuracy : Option ℚ
  modelUsed : String
  features : List String
  deriving DecidableEq, Repr

/-- Junk element used only as a `getD` default. -/
def defaultEP : EnhancedPrediction :=
  { timestamp := 0, predicted := 0, confidence := 0, upperBound := 0, lowerBound := 0,
    actual := none, accuracy := none, modelUsed := "", features := [] }

/-- A raw stored prediction row as consumed by
`PredictionService.calculateAccuracyMetrics` (`target_date`,
`predicted_value`, `confidence_score`, `model_version`, feature names). -/
structure PredRow where
  target_date : ℕ
  predicted_value : ℚ
  confidence_score : ℚ
  model_version : String
  features_used : List String
  deriving DecidableEq, Repr

/-- Junk row used only as a `getD` default. -/
def defaultRow : PredRow :=
  { target_date := 0, predicted_value := 0, confidence_score := 0,
    model_version := "", features_used := [] }

/-- `[...new Set(l)]`: deduplication keeping first occurrences, as a
JavaScript `Set` does. -/
def jsSetDedup (l : List String) : List String :=
  l.foldl (fun acc x => if x ∈ acc then acc else acc ++ [x]) []

/-- `PredictionService.calculateMomentum`: average of the last ten closes
against the average of `prices.slice(-20, -10)`.  The guard in the source is
`prices.length < 10` (not 20). -/
def calculateMomentum (prices : List ℚ) : ℚ :=
  if prices.length < 10 then 0
  else
    let recent := prices.drop (prices.length - 10)
    let older := (prices.take (prices.length - 10)).drop (prices.length - 20)
    let recentAvg := recent.sum / (recent.length : ℚ)
    let olderAvg := older.sum / (older.length : ℚ)
    (recentAvg - olderAvg) / olderAvg

/-- The momentum formula as the specification words it: the average of the
last 10 closes against the average of the 10 closes before them.  This
definition follows the specification text, to be compared with
`calculateMomentum` above. -/
def momentumSpecFormula (prices : List ℚ) : ℚ :=
  let recent := prices.drop (prices.length - 10)
  let older := (prices.drop (prices.length - 20)).take 10
  (recent.sum / (recent.length : ℚ) - older.sum / (older.length : ℚ)) /
    (older.sum / (older.length : ℚ))

/-- Loop body of `PredictionService.combineModelPredictions`: the ensemble
point pushed for one day from the (nonempty) gathered per-model points. -/
def mkCombined (dayPredictions : List EnhancedPrediction) : EnhancedPrediction :=
  let totalWeight := (dayPredictions.map (fun p => p.confidence)).sum
  let weightedPrice :=
    (dayPredictions.map (fun p => p.predicted * p.confidence)).sum / totalWeight
  let avgConfidence :=
    (dayPredictions.map (fun p => p.confidence)).sum / (dayPredictions.length : ℚ)
  { timestamp := (dayPredictions.headD defaultEP).timestamp
    predicted := weightedPrice
    confidence := avgConfidence
    upperBound := maxList (dayPredictions.map (fun p => p.upperBound))
    lowerBound := minList (dayPredictions.map (fun p => p.lowerBound))
    modelUsed := "Ensemble"
    actual := none
    accuracy := none
    features := jsSetDedup (dayPredictions.flatMap (fun p => p.features)) }

/-- `PredictionService.combineModelPredictions`: iterate `day` over the
length of the FIRST model sequence; gather `modelPredictions.map(m => m[day])`
filtered of missing entries; `continue` when nothing was gathered, else push
the combined point. -/
def combineModelPredictions (modelPredictions : List (List EnhancedPrediction)) :
    List EnhancedPrediction :=
  if modelPredictions.length = 0 then []
  else
    (List.range (modelPredictions.headD []).length).foldl (fun acc day =>
      match modelPredictions.filterMap (fun m => m.get? day) with
      | [] => acc
      | q :: qs => acc ++ [mkCombined (q :: qs)]) []

/-- The realized-price map of `calculateAccuracyMetrics`: a JavaScript `Map`
built by successive `set` calls, so a later entry for the same date wins. -/
def actualMapLookup (actualData : List (ℕ × ℚ)) (d : ℕ) : Option ℚ :=
  (actualData.reverse.find? (fun item => item.1 = d)).map (fun item => item.2)

/-- `PredictionService.calculateAccuracyMetrics`: join each stored prediction
row with the realized price for its target date; `accuracy` is set only when
the realized price is truthy (present and nonzero). -/
def calculateAccuracyMetrics (predictions : List PredRow) (actualData : List (ℕ × ℚ)) :
    List EnhancedPrediction :=
  predictions.map (fun pred =>
    let targetDate := pred.target_date
    let actualPrice := actualMapLookup actualData targetDate
    let accuracy : Option ℚ :=
      match actualPrice with
      | some a =>
          if a = 0 then none
          else some (max 0 (1 - |pred.predicted_value - a| / a))
      | none => none
    { timestamp := targetDate
      predicted := pred.predicted_value
      confidence := pred.confidence_score
      upperBound := pred.predicted_value * (105 / 100)
      lowerBound := pred.predicted_value * (95 / 100)
      actual := actualPrice
      accuracy := accuracy
      modelUsed := pred.model_version
      features := pred.features_used })

/-- Result of `calculateOverallMetrics`; `rmse` lives in `ℝ` because of the
square root. -/
structure OverallMetrics where
  accuracy : ℚ
  mape : ℚ
  rmse : ℝ

/-- `PredictionService.calculateOverallMetrics`: average the per-point
accuracy, absolute percentage error and squared error over the predictions
that have a truthy `actual`, dividing by the count of predictions whose
`actual` is present (defined, possibly zero). -/
noncomputable def calculateOverallMetrics (predictions : List EnhancedPrediction) :
    OverallMetrics :=
  let validPredictions := predictions.filter (fun p => p.actual.isSome)
  if validPredictions.length = 0 then { accuracy := 0, mape := 0, rmse := 0 }
  else
    let totals := validPredictions.foldl (fun t p =>
      match p.actual with
      | some a =>
          if a = 0 then t
          else (t.1 + p.accuracy.getD 0,
                t.2.1 + |p.predicted - a| / a,
                t.2.2 + |p.predicted - a| ^ 2)
      | none => t) ((0 : ℚ), (0 : ℚ), (0 : ℚ))
    { accuracy := totals.1 / (validPredictions.length : ℚ)
      mape := totals.2.1 / (validPredictions.length : ℚ)
      rmse := Real.sqrt ((totals.2.2 : ℝ) / (validPredictions.length : ℝ)) }

/-! ## Shared facts about the RSI arrays -/

lemma rsiGains_length (prices : List ℚ) : (rsiGains prices).length = prices.length - 1 := by
  simp only [rsiGains, rsiChanges, List.length_map, List.length_zipWith, List.length_drop]
  rw [Nat.min_def]
  split <;> omega

lemma rsiGains_nonneg (prices : List ℚ) : ∀ x ∈ rsiGains prices, 0 ≤ x := by
  intro x hx
  rcases List.mem_map.mp hx with ⟨c, _, rfl⟩
  split <;> [linarith; exact le_refl 0]

lemma rsiLosses_nonneg (prices : List ℚ) : ∀ x ∈ rsiLosses prices, 0 ≤ x := by
  intro x hx
  rcases List.mem_map.mp hx with ⟨c, _, rfl⟩
  split <;> [exact abs_nonneg c; exact le_refl 0]

lemma rsiAvgGain_nonneg (prices : List ℚ) (period j : ℕ) : 0 ≤ rsiAvgGain prices period j := by
  refine div_nonneg (List.sum_nonneg ?_) (by positivity)
  intro x hx
  exact rsiGains_nonneg prices x (List.mem_of_mem_drop (List.mem_of_mem_take hx))

lemma rsiAvgLoss_nonneg (prices : List ℚ) (period j : ℕ) : 0 ≤ rsiAvgLoss prices period j := by
  refine div_nonneg (List.sum_nonneg ?_) (by positivity)
  intro x hx
  exact rsiLosses_nonneg prices x (List.mem_of_mem_drop (List.mem_of_mem_take hx))

/-- C1.  `calculateRSI` returns the empty sequence exactly when
`prices.length ≤ period`; otherwise it returns `prices.length - period`
values, every value lies in `[0, 100]`, and the value is exactly `100` at
every index whose trailing window has average loss `0`. -/
theorem rsi_empty_iff_length_bounds_and_flat100 (prices : List ℚ) (period : ℕ) :
    (calculateRSI prices period = [] ↔ prices.length ≤ period) ∧
    (period < prices.length → (calculateRSI prices period).length = prices.length - period) ∧
    (∀ v ∈ calculateRSI prices period, 0 ≤ v ∧ v ≤ 100) ∧
    (∀ j, j < (calculateRSI prices period).length → rsiAvgLoss prices period j = 0 →
      (calculateRSI prices period).getD j 0 = 100) := by
  by_cases hlen : prices.length < period + 1
  · have hempty : calculateRSI prices period = [] := by
      simp [calculateRSI, hlen]
    refine ⟨⟨fun _ => by omega, fun _ => hempty⟩, fun h => absurd h (by omega), ?_, ?_⟩
    · intro v hv; rw [hempty] at hv; cases hv
    · intro j hj _; rw [hempty] at hj; cases hj
  · have hlen' : period + 1 ≤ prices.length := by omega
    have hn : (rsiGains prices).length + 1 - period = prices.length - period := by
      rw [rsiGains_length]; omega
    have hrsi : calculateRSI prices period =
        (List.range (prices.length - period)).map (fun j =>
          if rsiAvgLoss prices period j = 0 then 100
          else 100 - 100 / (1 + rsiAvgGain prices period j / rsiAvgLoss prices period j)) := by
      simp only [calculateRSI, if_neg hlen, hn]
    have hlength : (calculateRSI prices period).length = prices.length - period := by
      rw [hrsi, List.length_map, List.length_range]
    have hvalue : ∀ j : ℕ, 0 ≤ (if rsiAvgLoss prices period j = 0 then (100 : ℚ)
        else 100 - 100 / (1 + rsiAvgGain prices period j / rsiAvgLoss prices period j)) ∧
        (if rsiAvgLoss prices period j = 0 then (100 : ℚ)
        else 100 - 100 / (1 + rsiAvgGain prices period j / rsiAvgLoss prices period j)) ≤ 100 := by
      intro j
      by_cases hl : rsiAvgLoss prices period j = 0
      · rw [if_pos hl]; norm_num
      · rw [if_neg hl]
        have hlpos : 0 < rsiAvgLoss prices period j :=
          lt_of_le_of_ne (rsiAvgLoss_nonneg prices period j) (Ne.symm hl)
        have hratio : 0 ≤ rsiAvgGain prices period j / rsiAvgLoss prices period j :=
          div_nonneg (rsiAvgGain_nonneg prices period j) hlpos.le
        have hden : (0 : ℚ) < 1 + rsiAvgGain prices period j / rsiAvgLoss prices period j := by
          linarith
        have hup : 100 / (1 + rsiAvgGain prices period j / rsiAvgLoss prices period j) ≤ 100 := by
          rw [div_le_iff₀ hden]; nlinarith
        have hpos : 0 < 100 / (1 + rsiAvgGain prices period j / rsiAvgLoss prices period j) :=
          div_pos (by norm_num) hden
        constructor <;> linarith
    refine ⟨⟨fun he => ?_, fun h => by omega⟩, fun _ => hlength, ?_, ?_⟩
    · have := hlength
      rw [he] at this
      simp only [List.length_nil] at this
      omega
    · intro v hv
      rw [hrsi] at hv
      rcases List.mem_map.mp hv with ⟨j, _, rfl⟩
      exact hvalue j
    · intro j hj hzero
      rw [hlength] at hj
      rw [hrsi, getD_map_range _ _ _ _ hj, if_pos hzero]

/-- Witness for C1 at `prices = [1, 3, 2]`, `period = 1`
(where `calculateRSI = [100, 0]`). -/
theorem rsi_empty_iff_length_bounds_and_flat100_witness :
    (1 < ([1, 3, 2] : List ℚ).length) ∧
    (calculateRSI [1, 3, 2] 1).length = ([1, 3, 2] : List ℚ).length - 1 ∧
    rsiAvgLoss [1, 3, 2] 1 0 = 0 ∧
    (calculateRSI [1, 3, 2] 1).getD 0 0 = 100 := by
  have h1 : 1 < ([1, 3, 2] : List ℚ).length := by norm_num
  have hlen := (rsi_empty_iff_length_bounds_and_flat100 [1, 3, 2] 1).2.1 h1
  have hzero : rsiAvgLoss [1, 3, 2] 1 0 = 0 := by
    norm_num [rsiAvgLoss, rsiLosses, rsiChanges]
  refine ⟨h1, hlen, hzero, ?_⟩
  exact (rsi_empty_iff_length_bounds_and_flat100 [1, 3, 2] 1).2.2.2 0
    (by rw [hlen]; norm_num) hzero

/-! ## C4: calculateMomentum -/

/-- C4 counterexample.  With 15 points (fewer than 20) the code does NOT
return 0: the guard in the source is `prices.length < 10`, so for
`[1,1,1,1,1,2,2,2,2,2,2,2,2,2,2]` it compares the last ten closes (all 2)
with the five available prior closes (all 1) and returns 1. -/
theorem momentum_under20_counterexample :
    ([1, 1, 1, 1, 1, 2, 2, 2, 2, 2, 2, 2, 2, 2, 2] : List ℚ).length < 20 ∧
    calculateMomentum [1, 1, 1, 1, 1, 2, 2, 2, 2, 2, 2, 2, 2, 2, 2] = 1 ∧
    (1 : ℚ) ≠ 0 := by
  refine ⟨by norm_num, ?_, by norm_num⟩
  norm_num [calculateMomentum]

/-- C4 (amended).  `calculateMomentum` returns 0 only when fewer than 10
points are supplied; with at least 20 points it equals the claimed formula
(average of the last 10 closes against the average of the prior 10 closes);
with 10 to 19 points it uses the `len - 10` available prior closes instead
of returning 0. -/
theorem momentum_guard_and_formula (prices : List ℚ) :
    (prices.length < 10 → calculateMomentum prices = 0) ∧
    (20 ≤ prices.length → calculateMomentum prices = momentumSpecFormula prices) := by
  constructor
  · intro h
    simp [calculateMomentum, h]
  · intro h
    have hguard : ¬ prices.length < 10 := by omega
    have holder : (prices.take (prices.length - 10)).drop (prices.length - 20) =
        (prices.drop (prices.length - 20)).take 10 := by
      rw [List.drop_take]
      congr 1
      omega
    rw [calculateMomentum, if_neg hguard, momentumSpecFormula]
    rw [holder]

/-- Witness for C4 at a 9-point list (returns 0) and a 20-point list
(returns the claimed formula). -/
theorem momentum_guard_and_formula_witness :
    (([1, 1, 1, 1, 1, 1, 1, 1, 1] : List ℚ).length < 10) ∧
    calculateMomentum [1, 1, 1, 1, 1, 1, 1, 1, 1] = 0 ∧
    (20 ≤ ([1, 1, 1, 1, 1, 1, 1, 1, 1, 1, 2, 2, 2, 2, 2, 2, 2, 2, 2, 2] : List ℚ).length) ∧
    calculateMomentum [1, 1, 1, 1, 1, 1, 1, 1, 1, 1, 2, 2, 2, 2, 2, 2, 2, 2, 2, 2] =
      momentumSpecFormula [1, 1, 1, 1, 1, 1, 1, 1, 1, 1, 2, 2, 2, 2, 2, 2, 2, 2, 2, 2] := by
  have h9 : ([1, 1, 1, 1, 1, 1, 1, 1, 1] : List ℚ).length < 10 := by norm_num
  have h20 : 20 ≤ ([1, 1, 1, 1, 1, 1, 1, 1, 1, 1, 2, 2, 2, 2, 2, 2, 2, 2, 2, 2] : List ℚ).length := by
    norm_num
  exact ⟨h9, (momentum_guard_and_formula _).1 h9, h20, (momentum_guard_and_formula _).2 h20⟩

/-! ## C2: calculateMACD alignment -/

/-- C2 counterexample.  For `closes = [0,0,4]`, `fast = 1`, `slow = 2` the
code's MACD entry 0 is `emaFast[0] - emaSlow[1] = -8/3`, while the aligned
subtraction the claim describes (`emaFast[k + (slow - fast)] - emaSlow[k]`,
both at close position `k + slow - 1`) gives `emaFast[1] - emaSlow[0] = 0`:
the value pushed subtracts EMA values from different close positions. -/
theorem macd_alignment_counterexample :
    ((calculateMACD [0, 0, 4] 1 2 9).1).getD 0 0 = -8/3 ∧
    (calculateEMA [0, 0, 4] 1).getD (0 + (2 - 1)) 0 - (calculateEMA [0, 0, 4] 2).getD 0 0 = 0 ∧
    ((-8 : ℚ)/3) ≠ 0 := by
  refine ⟨?_, ?_, by norm_num⟩
  · norm_num [calculateMACD, calculateEMA, List.scanl]
  · norm_num [calculateEMA, List.scanl]

/-- C2 (amended).  For `fastPeriod ≤ slowPeriod`, the MACD line starts the
fast EMA at offset 0 and the SLOW EMA at offset `slowPeriod - fastPeriod`:
entry `k` is `emaFast[k] - emaSlow[k + (slowPeriod - fastPeriod)]`, i.e. the
subtracted values sit `2·(slowPeriod - fastPeriod)` close positions apart
rather than at the same position. -/
theorem macd_line_pairs_fast_with_shifted_slow (prices : List ℚ)
    (fastPeriod slowPeriod signalPeriod : ℕ) (hfs : fastPeriod ≤ slowPeriod) :
    ((calculateMACD prices fastPeriod slowPeriod signalPeriod).1).length =
      min (calculateEMA prices fastPeriod).length (calculateEMA prices slowPeriod).length -
        (slowPeriod - fastPeriod) ∧
    ∀ k, k < ((calculateMACD prices fastPeriod slowPeriod signalPeriod).1).length →
      ((calculateMACD prices fastPeriod slowPeriod signalPeriod).1).getD k 0 =
        (calculateEMA prices fastPeriod).getD k 0 -
        (calculateEMA prices slowPeriod).getD (k + (slowPeriod - fastPeriod)) 0 := by
  have hmacd : (calculateMACD prices fastPeriod slowPeriod signalPeriod).1 =
      (List.range (min (calculateEMA prices fastPeriod).length
          (calculateEMA prices slowPeriod).length - (slowPeriod - fastPeriod))).map (fun k =>
        (calculateEMA prices fastPeriod).getD
          (k + (slowPeriod - fastPeriod) + fastPeriod - slowPeriod) 0 -
        (calculateEMA prices slowPeriod).getD (k + (slowPeriod - fastPeriod)) 0) := rfl
  constructor
  · rw [hmacd, List.length_map, List.length_range]
  · intro k hk
    rw [hmacd] at hk ⊢
    rw [List.length_map, List.length_range] at hk
    rw [getD_map_range _ _ _ _ hk]
    have hidx : k + (slowPeriod - fastPeriod) + fastPeriod - slowPeriod = k := by omega
    rw [hidx]

/-- Witness for C2 at `closes = [0,0,4]`, `fast = 1`, `slow = 2`, `k = 0`. -/
theorem macd_line_pairs_fast_with_shifted_slow_witness :
    (1 ≤ 2) ∧
    0 < ((calculateMACD [0, 0, 4] 1 2 9).1).length ∧
    ((calculateMACD [0, 0, 4] 1 2 9).1).getD 0 0 =
      (calculateEMA [0, 0, 4] 1).getD 0 0 -
      (calculateEMA [0, 0, 4] 2).getD (0 + (2 - 1)) 0 := by
  have hlen : 0 < ((calculateMACD [0, 0, 4] 1 2 9).1).length := by
    rw [(macd_line_pairs_fast_with_shifted_slow [0, 0, 4] 1 2 9 (by norm_num)).1]
    norm_num [calculateEMA]
  exact ⟨by norm_num, hlen,
    (macd_line_pairs_fast_with_shifted_slow [0, 0, 4] 1 2 9 (by norm_num)).2 0 hlen⟩

/-! ## C5: calculateADX -/

/-- C5 counterexample.  With `period = 1` and the flat series `[1,1]` every
trailing window of highs is constant, so `trend = 0` and `volatility = 0`
and the pushed value is the NaN of `0 / 0` (which `Math.max`/`Math.min`
propagate through the clamp), not a number in `[0, 100]`. -/
theorem adx_flat_window_nan_counterexample :
    calculateADX [1, 1] [1, 1] [1, 1] 1 = [JQ.nan] ∧ ¬ JQ.isClamped01 JQ.nan := by
  constructor
  · norm_num [calculateADX, List.range_succ, maxList, minList, JQ.div, JQ.mul, JQ.jmax,
      JQ.jmin]
  · rintro ⟨q, hq, -⟩
    cases hq

/-- C5 (amended).  For `1 ≤ period` and `len(highs) ≥ period + 1`, every
value of `calculateADX` whose trailing window of highs is not flat is a
finite number clamped into `[0, 100]`; a window whose highs are all equal
yields NaN (`0 / 0`), not a clamped number. -/
theorem adx_values_clamped_or_nan (highs lows closes : List ℚ) (period : ℕ)
    (hp : 1 ≤ period) (hlen : period + 1 ≤ highs.length) :
    ∀ j, j < (calculateADX highs lows closes period).length →
      ((maxList ((highs.drop j).take period) ≠ minList ((highs.drop j).take period) →
          JQ.isClamped01 ((calculateADX highs lows closes period).getD j JQ.nan)) ∧
        (maxList ((highs.drop j).take period) = minList ((highs.drop j).take period) →
          (calculateADX highs lows closes period).getD j JQ.nan = JQ.nan)) := by
  have hguard : ¬ highs.length < period + 1 := by omega
  have hlength : (calculateADX highs lows closes period).length = highs.length - period := by
    simp only [calculateADX, if_neg hguard]
    rw [List.length_map, List.length_range]
  intro j hj
  rw [hlength] at hj
  have hget : (calculateADX highs lows closes period).getD j JQ.nan =
      JQ.jmin (JQ.num 100) (JQ.jmax (JQ.num 0)
        (JQ.mul (JQ.div
          (JQ.num |((highs.drop j).take period).getD (((highs.drop j).take period).length - 1) 0 -
            ((highs.drop j).take period).getD 0 0|)
          (JQ.num (maxList ((highs.drop j).take period) - minList ((highs.drop j).take period))))
          (JQ.num 100))) := by
    simp only [calculateADX, if_neg hguard]
    rw [getD_map_range _ _ _ _ hj]
  have hslen : ((highs.drop j).take period).length = period := by
    rw [List.length_take, List.length_drop]
    omega
  constructor
  · intro hne
    have hvol : maxList ((highs.drop j).take period) -
        minList ((highs.drop j).take period) ≠ 0 := sub_ne_zero.mpr hne
    rw [hget]
    simp only [JQ.div, if_neg hvol, JQ.mul, JQ.jmax, JQ.jmin]
    refine ⟨_, rfl, ?_, ?_⟩
    · exact le_min (by norm_num) (le_max_left 0 _)
    · exact min_le_left 100 _
  · intro hflat
    have hmem0 : ((highs.drop j).take period).getD 0 0 ∈ (highs.drop j).take period := by
      rw [List.getD_eq_getElem _ _ (by omega)]
      exact List.getElem_mem _
    have hmeml : ((highs.drop j).take period).getD (((highs.drop j).take period).length - 1) 0 ∈
        (highs.drop j).take period := by
      rw [List.getD_eq_getElem _ _ (by omega)]
      exact List.getElem_mem _
    have hall : ∀ x ∈ (highs.drop j).take period, x = maxList ((highs.drop j).take period) := by
      intro x hx
      have h1 := le_maxList hx
      have h2 := minList_le hx
      rw [hflat] at h1 ⊢
      exact le_antisymm h1 h2
    have htrend : ((highs.drop j).take period).getD (((highs.drop j).take period).length - 1) 0 -
        ((highs.drop j).take period).getD 0 0 = 0 := by
      rw [hall _ hmeml, hall _ hmem0, sub_self]
    rw [hget, htrend, hflat, sub_self]
    norm_num [JQ.div, JQ.mul, JQ.jmax, JQ.jmin]

/-- Witness for C5 at `highs = [0, 2, 2]`, `period = 2`, `j = 0` (a
non-flat window whose clamped value is 100). -/
theorem adx_values_clamped_or_nan_witness :
    (1 ≤ 2) ∧ (2 + 1 ≤ ([0, 2, 2] : List ℚ).length) ∧
    0 < (calculateADX [0, 2, 2] [0, 0, 0] [0, 0, 0] 2).length ∧
    maxList ((([0, 2, 2] : List ℚ).drop 0).take 2) ≠
      minList ((([0, 2, 2] : List ℚ).drop 0).take 2) ∧
    JQ.isClamped01 ((calculateADX [0, 2, 2] [0, 0, 0] [0, 0, 0] 2).getD 0 JQ.nan) := by
  have hlen : 0 < (calculateADX [0, 2, 2] [0, 0, 0] [0, 0, 0] 2).length := by
    norm_num [calculateADX]
  have hne : maxList ((([0, 2, 2] : List ℚ).drop 0).take 2) ≠
      minList ((([0, 2, 2] : List ℚ).drop 0).take 2) := by
    norm_num [maxList, minList]
  exact ⟨by norm_num, by norm_num, hlen, hne,
    ((adx_values_clamped_or_nan [0, 2, 2] [0, 0, 0] [0, 0, 0] 2 (by norm_num) (by norm_num))
      0 hlen).1 hne⟩

/-! ## C9: calculateBollingerBands -/

lemma bollinger_middle_length (prices : List ℝ) (period : ℕ) (stdDev : ℝ)
    (hlen : period ≤ prices.length) :
    (calculateBollingerBands prices period stdDev).middle.length =
      prices.length + 1 - period := by
  have hguard : ¬ prices.length < period := by omega
  simp only [calculateBollingerBands, calculateSMA, if_neg hguard]
  rw [List.length_map, List.length_range]

lemma bollinger_upper_getD (prices : List ℝ) (period : ℕ) (stdDev : ℝ) (i : ℕ)
    (hi : i < prices.length + 1 - period) :
    (calculateBollingerBands prices period stdDev).upper.getD i 0 =
      (calculateSMA prices period).getD i 0 +
        Real.sqrt ((((prices.drop i).take period).map
          (fun b => (b - ((prices.drop i).take period).sum / (period : ℝ)) ^ 2)).sum /
            (period : ℝ)) * stdDev := by
  simp only [calculateBollingerBands]
  rw [List.map_map]
  exact getD_map_range _ _ _ _ hi

lemma bollinger_lower_getD (prices : List ℝ) (period : ℕ) (stdDev : ℝ) (i : ℕ)
    (hi : i < prices.length + 1 - period) :
    (calculateBollingerBands prices period stdDev).lower.getD i 0 =
      (calculateSMA prices period).getD i 0 -
        Real.sqrt ((((prices.drop i).take period).map
          (fun b => (b - ((prices.drop i).take period).sum / (period : ℝ)) ^ 2)).sum /
            (period : ℝ)) * stdDev := by
  simp only [calculateBollingerBands]
  rw [List.map_map]
  exact getD_map_range _ _ _ _ hi

/-- C9.  For `len(closes) ≥ period` and a non-negative standard-deviation
multiplier, the three Bollinger band sequences are aligned (equal lengths)
and satisfy `lower[i] ≤ middle[i] ≤ upper[i]` at every index. -/
theorem bollinger_upper_middle_lower_ordered (prices : List ℝ) (period : ℕ) (stdDev : ℝ)
    (hlen : period ≤ prices.length) (hsd : 0 ≤ stdDev) :
    (calculateBollingerBands prices period stdDev).upper.length =
      (calculateBollingerBands prices period stdDev).middle.length ∧
    (calculateBollingerBands prices period stdDev).lower.length =
      (calculateBollingerBands prices period stdDev).middle.length ∧
    ∀ i, i < (calculateBollingerBands prices period stdDev).middle.length →
      (calculateBollingerBands prices period stdDev).lower.getD i 0 ≤
        (calculateBollingerBands prices period stdDev).middle.getD i 0 ∧
      (calculateBollingerBands prices period stdDev).middle.getD i 0 ≤
        (calculateBollingerBands prices period stdDev).upper.getD i 0 := by
  have hmidlen := bollinger_middle_length prices period stdDev hlen
  have huplen : (calculateBollingerBands prices period stdDev).upper.length =
      prices.length + 1 - period := by
    simp only [calculateBollingerBands]
    rw [List.length_map, List.length_map, List.length_range]
  have hlolen : (calculateBollingerBands prices period stdDev).lower.length =
      prices.length + 1 - period := by
    simp only [calculateBollingerBands]
    rw [List.length_map, List.length_map, List.length_range]
  have hmid : (calculateBollingerBands prices period stdDev).middle =
      calculateSMA prices period := rfl
  refine ⟨by rw [huplen, hmidlen], by rw [hlolen, hmidlen], ?_⟩
  intro i hi
  rw [hmidlen] at hi
  have hnn : 0 ≤ Real.sqrt ((((prices.drop i).take period).map
      (fun b => (b - ((prices.drop i).take period).sum / (period : ℝ)) ^ 2)).sum /
        (period : ℝ)) * stdDev :=
    mul_nonneg (Real.sqrt_nonneg _) hsd
  rw [hmid, bollinger_upper_getD prices period stdDev i hi,
    bollinger_lower_getD prices period stdDev i hi]
  constructor <;> linarith

/-- Witness for C9 at `prices = [1, 1]`, `period = 2`, `stdDev = 2`. -/
theorem bollinger_upper_middle_lower_ordered_witness :
    (2 ≤ ([1, 1] : List ℝ).length) ∧ ((0 : ℝ) ≤ 2) ∧
    0 < (calculateBollingerBands [1, 1] 2 2).middle.length ∧
    ((calculateBollingerBands [1, 1] 2 2).lower.getD 0 0 ≤
      (calculateBollingerBands [1, 1] 2 2).middle.getD 0 0 ∧
    (calculateBollingerBands [1, 1] 2 2).middle.getD 0 0 ≤
      (calculateBollingerBands [1, 1] 2 2).upper.getD 0 0) := by
  have hlen : 2 ≤ ([1, 1] : List ℝ).length := by norm_num
  have hmid : 0 < (calculateBollingerBands [1, 1] 2 2).middle.length := by
    rw [bollinger_middle_length ([1, 1] : List ℝ) 2 2 hlen]
    norm_num
  exact ⟨hlen, by norm_num, hmid,
    (bollinger_upper_middle_lower_ordered [1, 1] 2 2 hlen (by norm_num)).2.2 0 hmid⟩

/-! ## C10: calculateStochastic -/

/-- The element of a `drop`/`take` window at window position `m` is the
original element at position `j + m`. -/
lemma getD_mem_window (l : List ℚ) (j m k : ℕ) (hm : m < k) (hjm : j + m < l.length) :
    l.getD (j + m) 0 ∈ (l.drop j).take k := by
  have hlt : m < ((l.drop j).take k).length := by
    rw [List.length_take, List.length_drop]
    omega
  have hdlt : m < (l.drop j).length := by
    rw [List.length_drop]
    omega
  have hv : ((l.drop j).take k).getD m 0 = l.getD (j + m) 0 := by
    rw [List.getD_eq_getElem _ _ hlt, List.getD_eq_getElem _ _ hjm]
    simp [List.getElem_take, List.getElem_drop]
  rw [← hv, List.getD_eq_getElem _ _ hlt]
  exact List.getElem_mem _

/-- Values of `calculateSMA` stay inside any interval that contains all the
input values (the window average of values in `[a, b]` is in `[a, b]`). -/
lemma sma_values_bounded (l : List ℚ) (period : ℕ) (hp : 1 ≤ period) (a b : ℚ)
    (hl : ∀ x ∈ l, a ≤ x ∧ x ≤ b) :
    ∀ v ∈ calculateSMA l period, a ≤ v ∧ v ≤ b := by
  intro v hv
  rw [calculateSMA] at hv
  by_cases hguard : l.length < period
  · rw [if_pos hguard] at hv
    cases hv
  · rw [if_neg hguard] at hv
    rcases List.mem_map.mp hv with ⟨j, hj, rfl⟩
    have hjr := List.mem_range.mp hj
    have hwlen : ((l.drop j).take period).length = period := by
      rw [List.length_take, List.length_drop]
      omega
    have hwin : ∀ x ∈ (l.drop j).take period, a ≤ x ∧ x ≤ b := fun x hx =>
      hl x (List.mem_of_mem_drop (List.mem_of_mem_take hx))
    have hupper : ((l.drop j).take period).sum ≤ (period : ℚ) * b := by
      have := List.sum_le_card_nsmul ((l.drop j).take period) b (fun x hx => (hwin x hx).2)
      rw [hwlen] at this
      simpa [nsmul_eq_mul] using this
    have hlower : (period : ℚ) * a ≤ ((l.drop j).take period).sum := by
      have := List.card_nsmul_le_sum ((l.drop j).take period) a (fun x hx => (hwin x hx).1)
      rw [hwlen] at this
      simpa [nsmul_eq_mul] using this
    have hper : (0 : ℚ) < (period : ℚ) := by
      exact_mod_cast Nat.lt_of_lt_of_le Nat.zero_lt_one hp
    constructor
    · rw [le_div_iff₀ hper]
      linarith
    · rw [div_le_iff₀ hper]
      linarith

/-- C10.  With well-formed OHLC input (`lows[i] ≤ closes[i] ≤ highs[i]`,
equal lengths) and positive periods, every `%K` value is in `[0, 100]`
(and equals 50 on a window whose highest high equals its lowest low), and
every `%D` value (an SMA of `%K`) is also in `[0, 100]`. -/
theorem stochastic_k_and_d_in_0_100 (highs lows closes : List ℚ) (kPeriod dPeriod : ℕ)
    (hk : 1 ≤ kPeriod) (hd : 1 ≤ dPeriod) (hkl : kPeriod ≤ closes.length)
    (hhl : highs.length = closes.length) (hll : lows.length = closes.length)
    (hb : ∀ i, i < closes.length →
      lows.getD i 0 ≤ closes.getD i 0 ∧ closes.getD i 0 ≤ highs.getD i 0) :
    (∀ v ∈ (calculateStochastic highs lows closes kPeriod dPeriod).1, 0 ≤ v ∧ v ≤ 100) ∧
    (∀ j, j < (calculateStochastic highs lows closes kPeriod dPeriod).1.length →
      maxList ((highs.drop j).take kPeriod) = minList ((lows.drop j).take kPeriod) →
      (calculateStochastic highs lows closes kPeriod dPeriod).1.getD j 0 = 50) ∧
    (∀ v ∈ (calculateStochastic highs lows closes kPeriod dPeriod).2, 0 ≤ v ∧ v ≤ 100) := by
  have hkdef : (calculateStochastic highs lows closes kPeriod dPeriod).1 =
      (List.range (closes.length + 1 - kPeriod)).map (fun j =>
        if maxList ((highs.drop j).take kPeriod) = minList ((lows.drop j).take kPeriod) then 50
        else ((closes.getD (j + kPeriod - 1) 0 - minList ((lows.drop j).take kPeriod)) /
          (maxList ((highs.drop j).take kPeriod) - minList ((lows.drop j).take kPeriod))) * 100) :=
    rfl
  have hvalue : ∀ j, j < closes.length + 1 - kPeriod →
      0 ≤ (if maxList ((highs.drop j).take kPeriod) = minList ((lows.drop j).take kPeriod)
        then (50 : ℚ)
        else ((closes.getD (j + kPeriod - 1) 0 - minList ((lows.drop j).take kPeriod)) /
          (maxList ((highs.drop j).take kPeriod) - minList ((lows.drop j).take kPeriod))) * 100) ∧
      (if maxList ((highs.drop j).take kPeriod) = minList ((lows.drop j).take kPeriod)
        then (50 : ℚ)
        else ((closes.getD (j + kPeriod - 1) 0 - minList ((lows.drop j).take kPeriod)) /
          (maxList ((highs.drop j).take kPeriod) - minList ((lows.drop j).take kPeriod))) * 100)
        ≤ 100 := by
    intro j hj
    by_cases hflat : maxList ((highs.drop j).take kPeriod) =
        minList ((lows.drop j).take kPeriod)
    · rw [if_pos hflat]
      norm_num
    · rw [if_neg hflat]
      have hidx : j + kPeriod - 1 = j + (kPeriod - 1) := by omega
      have hlti : j + (kPeriod - 1) < closes.length := by omega
      have hcb := hb (j + (kPeriod - 1)) hlti
      have hlmem : lows.getD (j + (kPeriod - 1)) 0 ∈ (lows.drop j).take kPeriod :=
        getD_mem_window lows j (kPeriod - 1) kPeriod (by omega) (by omega)
      have hhmem : highs.getD (j + (kPeriod - 1)) 0 ∈ (highs.drop j).take kPeriod :=
        getD_mem_window highs j (kPeriod - 1) kPeriod (by omega) (by omega)
      have hlo : minList ((lows.drop j).take kPeriod) ≤ closes.getD (j + (kPeriod - 1)) 0 :=
        le_trans (minList_le hlmem) hcb.1
      have hhi : closes.getD (j + (kPeriod - 1)) 0 ≤ maxList ((highs.drop j).take kPeriod) :=
        le_trans hcb.2 (le_maxList hhmem)
      have hlth : minList ((lows.drop j).take kPeriod) <
          maxList ((highs.drop j).take kPeriod) :=
        lt_of_le_of_ne (le_trans hlo hhi) (Ne.symm hflat)
      have hden : (0 : ℚ) < maxList ((highs.drop j).take kPeriod) -
          minList ((lows.drop j).take kPeriod) := by linarith
      have hq0 : 0 ≤ (closes.getD (j + kPeriod - 1) 0 - minList ((lows.drop j).take kPeriod)) /
          (maxList ((highs.drop j).take kPeriod) - minList ((lows.drop j).take kPeriod)) := by
        rw [hidx]
        exact div_nonneg (by linarith) hden.le
      have hq1 : (closes.getD (j + kPeriod - 1) 0 - minList ((lows.drop j).take kPeriod)) /
          (maxList ((highs.drop j).take kPeriod) - minList ((lows.drop j).take kPeriod)) ≤ 1 := by
        rw [hidx, div_le_one hden]
        linarith
      constructor
      · positivity
      · nlinarith
  refine ⟨?_, ?_, ?_⟩
  · intro v hv
    rw [hkdef] at hv
    rcases List.mem_map.mp hv with ⟨j, hj, rfl⟩
    exact hvalue j (List.mem_range.mp hj)
  · intro j hj hflat
    rw [hkdef] at hj ⊢
    rw [List.length_map, List.length_range] at hj
    rw [getD_map_range _ _ _ _ hj, if_pos hflat]
  · intro v hv
    have hksnd : (calculateStochastic highs lows closes kPeriod dPeriod).2 =
        calculateSMA (calculateStochastic highs lows closes kPeriod dPeriod).1 dPeriod := rfl
    rw [hksnd] at hv
    refine sma_values_bounded _ dPeriod hd 0 100 ?_ v hv
    intro x hx
    rw [hkdef] at hx
    rcases List.mem_map.mp hx with ⟨j, hj, rfl⟩
    exact hvalue j (List.mem_range.mp hj)

/-- Witness for C10 at `highs = [1, 2, 3]`, `lows = [0, 1, 2]`,
`closes = [1, 2, 2]`, `kPeriod = 2`, `dPeriod = 1`
(where `%K = [100, 50]`). -/
theorem stochastic_k_and_d_in_0_100_witness :
    (2 ≤ ([1, 2, 2] : List ℚ).length) ∧
    (calculateStochastic [1, 2, 3] [0, 1, 2] [1, 2, 2] 2 1).1.getD 0 0 = 100 ∧
    (0 ≤ (calculateStochastic [1, 2, 3] [0, 1, 2] [1, 2, 2] 2 1).1.getD 0 0 ∧
      (calculateStochastic [1, 2, 3] [0, 1, 2] [1, 2, 2] 2 1).1.getD 0 0 ≤ 100) := by
  have hbounds : ∀ i, i < ([1, 2, 2] : List ℚ).length →
      ([0, 1, 2] : List ℚ).getD i 0 ≤ ([1, 2, 2] : List ℚ).getD i 0 ∧
      ([1, 2, 2] : List ℚ).getD i 0 ≤ ([1, 2, 3] : List ℚ).getD i 0 := by
    intro i hi
    have hi3 : i < 3 := by simpa using hi
    interval_cases i <;> norm_num
  have hmem : (calculateStochastic [1, 2, 3] [0, 1, 2] [1, 2, 2] 2 1).1.getD 0 0 ∈
      (calculateStochastic [1, 2, 3] [0, 1, 2] [1, 2, 2] 2 1).1 := by
    norm_num [calculateStochastic, List.range_succ, maxList, minList]
  refine ⟨by norm_num, by norm_num [calculateStochastic, List.range_succ, maxList, minList], ?_⟩
  exact (stochastic_k_and_d_in_0_100 [1, 2, 3] [0, 1, 2] [1, 2, 2] 2 1
    (by norm_num) (by norm_num) (by norm_num) (by norm_num) (by norm_num) hbounds).1 _ hmem

/-! ## C3 and C8: combineModelPredictions -/

lemma combine_foldl_filterMap (models : List (List EnhancedPrediction)) (l : List ℕ)
    (acc : List EnhancedPrediction) :
    l.foldl (fun acc day =>
      match models.filterMap (fun m => m.get? day) with
      | [] => acc
      | q :: qs => acc ++ [mkCombined (q :: qs)]) acc =
    acc ++ l.filterMap (fun day =>
      match models.filterMap (fun m => m.get? day) with
      | [] => none
      | q :: qs => some (mkCombined (q :: qs))) := by
  induction l generalizing acc with
  | nil => simp
  | cons d l ih =>
    rcases hgather : models.filterMap (fun m => m.get? d) with _ | ⟨q, qs⟩
    · have hstep : (d :: l).foldl (fun acc day =>
          match models.filterMap (fun m => m.get? day) with
          | [] => acc
          | q :: qs => acc ++ [mkCombined (q :: qs)]) acc =
          l.foldl (fun acc day =>
            match models.filterMap (fun m => m.get? day) with
            | [] => acc
            | q :: qs => acc ++ [mkCombined (q :: qs)]) acc := by
        simp only [List.foldl_cons, hgather]
      rw [hstep, ih]
      simp only [List.filterMap_cons, hgather]
    · have hstep : (d :: l).foldl (fun acc day =>
          match models.filterMap (fun m => m.get? day) with
          | [] => acc
          | q :: qs => acc ++ [mkCombined (q :: qs)]) acc =
          l.foldl (fun acc day =>
            match models.filterMap (fun m => m.get? day) with
            | [] => acc
            | q :: qs => acc ++ [mkCombined (q :: qs)]) (acc ++ [mkCombined (q :: qs)]) := by
        simp only [List.foldl_cons, hgather]
      rw [hstep, ih]
      simp only [List.filterMap_cons, hgather]
      simp

/-- `combineModelPredictions` characterised day by day: iterate over the
length of the first model sequence, emit the combined gathered points,
skipping days with nothing gathered. -/
lemma combine_eq_gather_filterMap (models : List (List EnhancedPrediction)) :
    combineModelPredictions models =
      (List.range (models.headD []).length).filterMap (fun day =>
        match models.filterMap (fun m => m.get? day) with
        | [] => none
        | q :: qs => some (mkCombined (q :: qs))) := by
  by_cases hm : models.length = 0
  · have hnil : models = [] := List.length_eq_zero.mp hm
    subst hnil
    rfl
  · rw [combineModelPredictions, if_neg hm]
    exact combine_foldl_filterMap models _ []

/-- C3 counterexample.  With `modelPredictions = [[], [pLstm]]` the second
sequence contributes a point at day 0 (the gather at day 0 is `[pLstm]`),
yet the output is empty, because the loop bound is the length of the FIRST
sequence (which is empty). -/
theorem combine_skips_days_beyond_first_counterexample :
    combineModelPredictions
      [[], [{ timestamp := 0, predicted := 5, confidence := 1, upperBound := 6,
              lowerBound := 4, actual := none, accuracy := none, modelUsed := "LSTM",
              features := [] }]] = [] ∧
    ([[], [{ timestamp := 0, predicted := 5, confidence := 1, upperBound := 6,
             lowerBound := 4, actual := none, accuracy := none, modelUsed := "LSTM",
             features := [] }]] : List (List EnhancedPrediction)).filterMap
        (fun m => m.get? 0) ≠ [] := by
  constructor
  · rfl
  · intro h
    simp [List.filterMap] at h

/-- C3 (amended).  `combine([]) = []`, and for a nonempty input list the
output has one combined point for each day index BELOW THE LENGTH OF THE
FIRST input sequence whose gather (the day-indexed point of every sequence
that has that index) is nonempty; gathered days beyond the first sequence's
length are dropped, and a day whose gather is empty is omitted, never
fabricated. -/
theorem combine_empty_and_gathers_by_first_length :
    combineModelPredictions ([] : List (List EnhancedPrediction)) = [] ∧
    ∀ models : List (List EnhancedPrediction),
      combineModelPredictions models =
        (List.range (models.headD []).length).filterMap (fun day =>
          match models.filterMap (fun m => m.get? day) with
          | [] => none
          | q :: qs => some (mkCombined (q :: qs))) :=
  ⟨rfl, combine_eq_gather_filterMap⟩

lemma weighted_sum_le_max_mul (dps : List EnhancedPrediction) (M : ℚ)
    (hM : ∀ p ∈ dps, p.predicted ≤ M) (hc : ∀ p ∈ dps, 0 ≤ p.confidence) :
    (dps.map (fun p => p.predicted * p.confidence)).sum ≤
      M * (dps.map (fun p => p.confidence)).sum := by
  induction dps with
  | nil => simp
  | cons p t ih =>
    have hp := hM p (List.mem_cons_self p t)
    have hcp := hc p (List.mem_cons_self p t)
    have ht := ih (fun x hx => hM x (List.mem_cons_of_mem p hx))
      (fun x hx => hc x (List.mem_cons_of_mem p hx))
    simp only [List.map_cons, List.sum_cons]
    have h1 : p.predicted * p.confidence ≤ M * p.confidence :=
      mul_le_mul_of_nonneg_right hp hcp
    nlinarith
  
lemma min_mul_le_weighted_sum (dps : List EnhancedPrediction) (m : ℚ)
    (hm : ∀ p ∈ dps, m ≤ p.predicted) (hc : ∀ p ∈ dps, 0 ≤ p.confidence) :
    m * (dps.map (fun p => p.confidence)).sum ≤
      (dps.map (fun p => p.predicted * p.confidence)).sum := by
  induction dps with
  | nil => simp
  | cons p t ih =>
    have hp := hm p (List.mem_cons_self p t)
    have hcp := hc p (List.mem_cons_self p t)
    have ht := ih (fun x hx => hm x (List.mem_cons_of_mem p hx))
      (fun x hx => hc x (List.mem_cons_of_mem p hx))
    simp only [List.map_cons, List.sum_cons]
    have h1 : m * p.confidence ≤ p.predicted * p.confidence :=
      mul_le_mul_of_nonneg_right hp hcp
    nlinarith

/-- C8 counterexample.  A single contributing model point with price 5 and
confidence 0 (which lies in `[0, 1]`) makes the total weight 0; the
weighted price is then `0/0` (NaN in JavaScript, 0 in this embedding),
which is not within `[min, max] = [5, 5]` of the contributing prices. -/
theorem ensemble_zero_confidence_counterexample :
    (combineModelPredictions
      [[{ timestamp := 0, predicted := 5, confidence := 0, upperBound := 6,
          lowerBound := 4, actual := none, accuracy := none, modelUsed := "LSTM",
          features := [] }]]).map (fun p => p.predicted) = [0] ∧
    ¬ ((5 : ℚ) ≤ 0) := by
  constructor
  · norm_num [combineModelPredictions, mkCombined, List.range_succ, List.filterMap]
  · norm_num

/-- C8 (amended).  For any day index below the first sequence's length whose
gathered points have nonnegative confidences with POSITIVE total
confidence, the combined point is in the output and its confidence-weighted
price lies within `[min, max]` of the contributing model prices.  (With all
confidences 0 the weighted price is `0/0`, see the counterexample.) -/
theorem ensemble_price_within_contributing_min_max
    (models : List (List EnhancedPrediction)) (day : ℕ)
    (hday : day < (models.headD []).length)
    (hconf : ∀ p ∈ models.filterMap (fun m => m.get? day), 0 ≤ p.confidence)
    (hpos : 0 < ((models.filterMap (fun m => m.get? day)).map (fun p => p.confidence)).sum) :
    mkCombined (models.filterMap (fun m => m.get? day)) ∈ combineModelPredictions models ∧
    minList ((models.filterMap (fun m => m.get? day)).map (fun p => p.predicted)) ≤
      (mkCombined (models.filterMap (fun m => m.get? day))).predicted ∧
    (mkCombined (models.filterMap (fun m => m.get? day))).predicted ≤
      maxList ((models.filterMap (fun m => m.get? day)).map (fun p => p.predicted)) := by
  have hne : models.filterMap (fun m => m.get? day) ≠ [] := by
    intro h
    rw [h] at hpos
    simp at hpos
  have hpred : (mkCombined (models.filterMap (fun m => m.get? day))).predicted =
      ((models.filterMap (fun m => m.get? day)).map (fun p => p.predicted * p.confidence)).sum /
      ((models.filterMap (fun m => m.get? day)).map (fun p => p.confidence)).sum := rfl
  refine ⟨?_, ?_, ?_⟩
  · rw [combine_eq_gather_filterMap models]
    refine List.mem_filterMap.mpr ⟨day, List.mem_range.mpr hday, ?_⟩
    rcases hgather : models.filterMap (fun m => m.get? day) with _ | ⟨q, qs⟩
    · exact absurd hgather hne
    · rw [hgather]
  · rw [hpred, le_div_iff₀ hpos]
    refine min_mul_le_weighted_sum _ _ ?_ hconf
    intro p hp
    exact minList_le (List.mem_map_of_mem (fun p => p.predicted) hp)
  · rw [hpred, div_le_iff₀ hpos]
    refine weighted_sum_le_max_mul _ _ ?_ hconf
    intro p hp
    exact le_maxList (List.mem_map_of_mem (fun p => p.predicted) hp)

/-- Concrete model points used by the C8 witness. -/
def ensembleP1 : EnhancedPrediction :=
  { timestamp := 0, predicted := 2, confidence := 1/2, upperBound := 3, lowerBound := 1,
    actual := none, accuracy := none, modelUsed := "LSTM", features := [] }

/-- Second concrete model point used by the C8 witness. -/
def ensembleP2 : EnhancedPrediction :=
  { timestamp := 0, predicted := 4, confidence := 1/2, upperBound := 5, lowerBound := 3,
    actual := none, accuracy := none, modelUsed := "ARIMA", features := [] }

/-- Witness for C8: two models contributing prices 2 and 4 with confidence
1/2 each at day 0; the combined price lies within `[2, 4]`. -/
theorem ensemble_price_within_contributing_min_max_witness :
    (0 < (([[ensembleP1], [ensembleP2]] : List (List EnhancedPrediction)).headD []).length) ∧
    (minList ((([[ensembleP1], [ensembleP2]] : List (List EnhancedPrediction)).filterMap
        (fun m => m.get? 0)).map (fun p => p.predicted)) ≤
      (mkCombined (([[ensembleP1], [ensembleP2]] : List (List EnhancedPrediction)).filterMap
        (fun m => m.get? 0))).predicted ∧
    (mkCombined (([[ensembleP1], [ensembleP2]] : List (List EnhancedPrediction)).filterMap
        (fun m => m.get? 0))).predicted ≤
      maxList ((([[ensembleP1], [ensembleP2]] : List (List EnhancedPrediction)).filterMap
        (fun m => m.get? 0)).map (fun p => p.predicted))) := by
  have hgather : ([[ensembleP1], [ensembleP2]] : List (List EnhancedPrediction)).filterMap
      (fun m => m.get? 0) = [ensembleP1, ensembleP2] := rfl
  refine ⟨by norm_num, ?_⟩
  refine And.intro ((ensemble_price_within_contributing_min_max _ 0 (by norm_num) ?_ ?_).2.1)
    ((ensemble_price_within_contributing_min_max _ 0 (by norm_num) ?_ ?_).2.2) <;>
    rw [hgather]
  · intro p hp
    rcases List.mem_cons.mp hp with rfl | hp
    · norm_num [ensembleP1]
    · rcases List.mem_cons.mp hp with rfl | hp
      · norm_num [ensembleP2]
      · cases hp
  · norm_num [ensembleP1, ensembleP2]
  · intro p hp
    rcases List.mem_cons.mp hp with rfl | hp
    · norm_num [ensembleP1]
    · rcases List.mem_cons.mp hp with rfl | hp
      · norm_num [ensembleP2]
      · cases hp
  · norm_num [ensembleP1, ensembleP2]

/-! ## C7: validation when no forecast date has a realized price -/

lemma actualMapLookup_eq_none (actualData : List (ℕ × ℚ)) (d : ℕ)
    (hd : d ∉ actualData.map Prod.fst) :
    actualMapLookup actualData d = none := by
  rw [actualMapLookup]
  have hfind : actualData.reverse.find? (fun item => item.1 = d) = none := by
    rw [List.find?_eq_none]
    intro x hx
    rw [List.mem_reverse] at hx
    have hne : x.1 ≠ d := fun h => hd (List.mem_map.mpr ⟨x, hx, h⟩)
    simpa using hne
  rw [hfind]
  rfl

/-- C7.  When no forecast point's target date appears in the realized-price
mapping (in particular, when the mapping is empty), every forecast entry is
kept (same length, same date and predicted value) with `actual` and
`accuracy` absent, and the aggregate metrics are exactly
`accuracy = 0, mape = 0, rmse = 0` (total functions: nothing throws). -/
theorem validate_unmatched_keeps_points_and_zero_metrics
    (preds : List PredRow) (actualData : List (ℕ × ℚ))
    (hmiss : ∀ p ∈ preds, p.target_date ∉ actualData.map Prod.fst) :
    (calculateAccuracyMetrics preds actualData).length = preds.length ∧
    (∀ q ∈ calculateAccuracyMetrics preds actualData, q.actual = none ∧ q.accuracy = none) ∧
    (∀ i, i < preds.length →
      ((calculateAccuracyMetrics preds actualData).getD i defaultEP).timestamp =
        (preds.getD i defaultRow).target_date ∧
      ((calculateAccuracyMetrics preds actualData).getD i defaultEP).predicted =
        (preds.getD i defaultRow).predicted_value) ∧
    calculateOverallMetrics (calculateAccuracyMetrics preds actualData) =
      { accuracy := 0, mape := 0, rmse := 0 } := by
  have hmap : calculateAccuracyMetrics preds actualData = preds.map (fun pred =>
      { timestamp := pred.target_date, predicted := pred.predicted_value,
        confidence := pred.confidence_score,
        upperBound := pred.predicted_value * (105 / 100),
        lowerBound := pred.predicted_value * (95 / 100),
        actual := none, accuracy := none,
        modelUsed := pred.model_version, features := pred.features_used }) := by
    rw [calculateAccuracyMetrics]
    refine List.map_congr_left ?_
    intro p hp
    simp only [actualMapLookup_eq_none actualData p.target_date (hmiss p hp)]
  have hfields : ∀ q ∈ calculateAccuracyMetrics preds actualData,
      q.actual = none ∧ q.accuracy = none := by
    intro q hq
    rw [hmap] at hq
    rcases List.mem_map.mp hq with ⟨pred, _, rfl⟩
    exact ⟨rfl, rfl⟩
  have hfilter : (calculateAccuracyMetrics preds actualData).filter
      (fun p => p.actual.isSome) = [] := by
    rw [List.filter_eq_nil_iff]
    intro q hq
    rw [(hfields q hq).1]
    simp
  refine ⟨by rw [hmap, List.length_map], hfields, ?_, ?_⟩
  · intro i hi
    have hsome : preds[i]? = some (preds.getD i defaultRow) := by
      rw [List.getElem?_eq_getElem hi, List.getD_eq_getElem _ _ hi]
    rw [hmap, List.getD_eq_getElem?_getD, List.getElem?_map, hsome]
    exact ⟨rfl, rfl⟩
  · rw [calculateOverallMetrics]
    simp only [hfilter, List.length_nil, if_pos]

/-- Witness for C7: a single forecast row with target date 0 validated
against the nonempty realized mapping `[(1, 5)]`, which has no entry for
date 0 (the genuine map-miss path). -/
theorem validate_unmatched_keeps_points_and_zero_metrics_witness :
    (0 < ([defaultRow] : List PredRow).length) ∧
    (∀ p ∈ ([defaultRow] : List PredRow),
      p.target_date ∉ ([(1, 5)] : List (ℕ × ℚ)).map Prod.fst) ∧
    ((calculateAccuracyMetrics [defaultRow] [(1, 5)]).getD 0 defaultEP).actual = none ∧
    ((calculateAccuracyMetrics [defaultRow] [(1, 5)]).getD 0 defaultEP).timestamp =
      (([defaultRow] : List PredRow).getD 0 defaultRow).target_date ∧
    calculateOverallMetrics (calculateAccuracyMetrics [defaultRow] [(1, 5)]) =
      { accuracy := 0, mape := 0, rmse := 0 } := by
  have h0 : 0 < ([defaultRow] : List PredRow).length := by norm_num
  have hmiss : ∀ p ∈ ([defaultRow] : List PredRow),
      p.target_date ∉ ([(1, 5)] : List (ℕ × ℚ)).map Prod.fst := by
    intro p hp
    rcases List.mem_cons.mp hp with rfl | hp
    · simp [defaultRow]
    · cases hp
  have hthm := validate_unmatched_keeps_points_and_zero_metrics [defaultRow] [(1, 5)] hmiss
  have hlen1 : 0 < (calculateAccuracyMetrics [defaultRow] [(1, 5)]).length := by
    rw [hthm.1]
    exact h0
  have hmem : (calculateAccuracyMetrics [defaultRow] [(1, 5)]).getD 0 defaultEP ∈
      calculateAccuracyMetrics [defaultRow] [(1, 5)] := by
    rw [List.getD_eq_getElem _ _ hlen1]
    exact List.getElem_mem _
  exact ⟨h0, hmiss, (hthm.2.1 _ hmem).1, (hthm.2.2.1 0 h0).1, hthm.2.2.2⟩
/-! ## C6: round-trip validation -/

lemma find_unique_key (l : List (ℕ × ℚ)) (d : ℕ) (v : ℚ)
    (hnd : (l.map Prod.fst).Nodup) (hmem : (d, v) ∈ l) :
    l.find? (fun item => item.1 = d) = some (d, v) := by
  induction l with
  | nil => cases hmem
  | cons a t ih =>
    rw [List.map_cons, List.nodup_cons] at hnd
    rcases List.mem_cons.mp hmem with heq | hmem'
    · rw [← heq]
      exact List.find?_cons_of_pos _ (by simp)
    · have hd : d ∈ t.map Prod.fst := List.mem_map.mpr ⟨(d, v), hmem', rfl⟩
      have hane : a.1 ≠ d := fun h => hnd.1 (h ▸ hd)
      rw [List.find?_cons_of_neg _ (by simpa using hane)]
      exact ih hnd.2 hmem'

lemma actualMapLookup_roundtrip (preds : List PredRow) (p : PredRow)
    (hnd : (preds.map (fun q => q.target_date)).Nodup) (hp : p ∈ preds) :
    actualMapLookup (preds.map (fun q => (q.target_date, q.predicted_value)))
      p.target_date = some p.predicted_value := by
  have hnd' : (((preds.map (fun q => (q.target_date, q.predicted_value))).reverse.map
      Prod.fst)).Nodup := by
    rw [List.map_reverse, List.nodup_reverse, List.map_map]
    exact hnd
  have hmem : (p.target_date, p.predicted_value) ∈
      (preds.map (fun q => (q.target_date, q.predicted_value))).reverse := by
    rw [List.mem_reverse]
    exact List.mem_map_of_mem _ hp
  rw [actualMapLookup, find_unique_key _ _ _ hnd' hmem]
  rfl

lemma roundtrip_foldl (l : List EnhancedPrediction)
    (hl : ∀ p ∈ l, ∃ a : ℚ, p.actual = some a ∧ a ≠ 0 ∧ p.predicted = a ∧
      p.accuracy = some 1) :
    ∀ t : ℚ × ℚ × ℚ,
      l.foldl (fun t p =>
        match p.actual with
        | some a =>
            if a = 0 then t
            else (t.1 + p.accuracy.getD 0,
                  t.2.1 + |p.predicted - a| / a,
                  t.2.2 + |p.predicted - a| ^ 2)
        | none => t) t = (t.1 + l.length, t.2.1, t.2.2) := by
  induction l with
  | nil =>
    intro t
    simp
  | cons p l ih =>
    intro t
    rcases hl p (List.mem_cons_self p l) with ⟨a, ha, hane, hpa, hacc⟩
    have htail : ∀ q ∈ l, ∃ a : ℚ, q.actual = some a ∧ a ≠ 0 ∧ q.predicted = a ∧
        q.accuracy = some 1 := fun q hq => hl q (List.mem_cons_of_mem p hq)
    have hstep : (p :: l).foldl (fun t p =>
        match p.actual with
        | some a =>
            if a = 0 then t
            else (t.1 + p.accuracy.getD 0,
                  t.2.1 + |p.predicted - a| / a,
                  t.2.2 + |p.predicted - a| ^ 2)
        | none => t) t =
        l.foldl (fun t p =>
        match p.actual with
        | some a =>
            if a = 0 then t
            else (t.1 + p.accuracy.getD 0,
                  t.2.1 + |p.predicted - a| / a,
                  t.2.2 + |p.predicted - a| ^ 2)
        | none => t) (t.1 + 1, t.2.1, t.2.2) := by
      simp only [List.foldl_cons, ha, hacc, hpa, if_neg hane, sub_self, abs_zero, zero_div,
        add_zero, Option.getD_some]
      norm_num
    rw [hstep, ih htail]
    refine Prod.ext ?_ (Prod.ext rfl rfl)
    simp only [List.length_cons]
    push_cast
    ring

/-- C6 counterexample.  The EMPTY forecast sequence validated against itself
yields `overallAccuracy = 0`, not `1.0`: with no validated points the code
returns all-zero aggregates. -/
theorem roundtrip_empty_counterexample :
    calculateOverallMetrics (calculateAccuracyMetrics [] []) =
      { accuracy := 0, mape := 0, rmse := 0 } ∧ (0 : ℚ) ≠ 1 := by
  constructor
  · rfl
  · norm_num

/-- C6 (amended).  For every NONEMPTY forecast sequence with positive
predicted values and distinct target dates, validating it against realized
prices equal to its own predicted values gives per-point accuracy exactly 1
and aggregate `accuracy = 1, mape = 0, rmse = 0` exactly. -/
theorem validate_roundtrip_perfect (preds : List PredRow)
    (hne : preds ≠ [])
    (hnd : (preds.map (fun q => q.target_date)).Nodup)
    (hpos : ∀ p ∈ preds, 0 < p.predicted_value) :
    (∀ q ∈ calculateAccuracyMetrics preds
        (preds.map (fun p => (p.target_date, p.predicted_value))), q.accuracy = some 1) ∧
    calculateOverallMetrics (calculateAccuracyMetrics preds
        (preds.map (fun p => (p.target_date, p.predicted_value)))) =
      { accuracy := 1, mape := 0, rmse := 0 } := by
  have hmapeq : calculateAccuracyMetrics preds
      (preds.map (fun p => (p.target_date, p.predicted_value))) =
      preds.map (fun p =>
        { timestamp := p.target_date, predicted := p.predicted_value,
          confidence := p.confidence_score,
          upperBound := p.predicted_value * (105 / 100),
          lowerBound := p.predicted_value * (95 / 100),
          actual := some p.predicted_value, accuracy := some 1,
          modelUsed := p.model_version, features := p.features_used }) := by
    rw [calculateAccuracyMetrics]
    refine List.map_congr_left ?_
    intro p hp
    have hlook := actualMapLookup_roundtrip preds p hnd hp
    have hne0 : p.predicted_value ≠ 0 := ne_of_gt (hpos p hp)
    simp only [hlook, if_neg hne0, sub_self, abs_zero, zero_div, sub_zero]
    norm_num
  have haccuracy : ∀ q ∈ calculateAccuracyMetrics preds
      (preds.map (fun p => (p.target_date, p.predicted_value))), q.accuracy = some 1 := by
    intro q hq
    rw [hmapeq] at hq
    rcases List.mem_map.mp hq with ⟨p, _, rfl⟩
    rfl
  have hprop : ∀ q ∈ calculateAccuracyMetrics preds
      (preds.map (fun p => (p.target_date, p.predicted_value))),
      ∃ a : ℚ, q.actual = some a ∧ a ≠ 0 ∧ q.predicted = a ∧ q.accuracy = some 1 := by
    intro q hq
    rw [hmapeq] at hq
    rcases List.mem_map.mp hq with ⟨p, hp, rfl⟩
    exact ⟨p.predicted_value, rfl, ne_of_gt (hpos p hp), rfl, rfl⟩
  have hfilter : (calculateAccuracyMetrics preds
      (preds.map (fun p => (p.target_date, p.predicted_value)))).filter
        (fun p => p.actual.isSome) =
      calculateAccuracyMetrics preds (preds.map (fun p => (p.target_date, p.predicted_value))) := by
    rw [List.filter_eq_self]
    intro q hq
    rcases hprop q hq with ⟨a, ha, -, -, -⟩
    rw [ha]
    simp
  have hlen : (calculateAccuracyMetrics preds
      (preds.map (fun p => (p.target_date, p.predicted_value)))).length = preds.length := by
    rw [hmapeq, List.length_map]
  have hlenne : preds.length ≠ 0 := fun h => hne (List.length_eq_zero.mp h)
  refine ⟨haccuracy, ?_⟩
  rw [calculateOverallMetrics]
  simp only [hfilter, hlen, if_neg hlenne]
  rw [roundtrip_foldl _ hprop (0, 0, 0)]
  simp only [hlen]
  have hcast : ((preds.length : ℚ)) ≠ 0 := by exact_mod_cast hlenne
  simp only [OverallMetrics.mk.injEq]
  refine ⟨?_, ?_, ?_⟩
  · dsimp only
    rw [zero_add, div_self hcast]
  · dsimp only
    rw [zero_div]
  · dsimp only
    push_cast
    rw [zero_div, Real.sqrt_zero]

/-- Concrete stored prediction row used by the C6 witness. -/
def sampleRow : PredRow :=
  { target_date := 0, predicted_value := 2, confidence_score := 9/10,
    model_version := "m", features_used := [] }

/-- Witness for C6 at the one-row forecast `[sampleRow]`. -/
theorem validate_roundtrip_perfect_witness :
    (([sampleRow] : List PredRow) ≠ []) ∧
    ((([sampleRow] : List PredRow)).map (fun q => q.target_date)).Nodup ∧
    (∀ p ∈ ([sampleRow] : List PredRow), 0 < p.predicted_value) ∧
    calculateOverallMetrics (calculateAccuracyMetrics [sampleRow]
        (([sampleRow] : List PredRow).map (fun p => (p.target_date, p.predicted_value)))) =
      { accuracy := 1, mape := 0, rmse := 0 } := by
  have h1 : ([sampleRow] : List PredRow) ≠ [] := by simp
  have h2 : ((([sampleRow] : List PredRow)).map (fun q => q.target_date)).Nodup := by simp
  have h3 : ∀ p ∈ ([sampleRow] : List PredRow), 0 < p.predicted_value := by
    intro p hp
    rcases List.mem_cons.mp hp with rfl | hp
    · norm_num [sampleRow]
    · cases hp
  exact ⟨h1, h2, h3, (validate_roundtrip_perfect [sampleRow] h1 h2 h3).2⟩
